import Mathlib

/-!
Shallow embedding of the diep.io party-link pipeline from
`cogs/diepio/partylink.py`: link extraction, party-code validation,
address decoding, server-directory parsing and lookup, link
classification, and the moderation decision taken in `on_message`.
Theorems at the end settle the specification claims against these
definitions.
-/

/-! ### Character classes used by the regexes and by `int(s, 16)` -/

/-- ASCII whitespace stripped by Python around the argument of
`int(s, 16)` (space, tab, newline, carriage return, vertical tab,
form feed; the model is restricted to ASCII whitespace). -/
def pyIsSpace (c : Char) : Bool :=
  c == ' ' || c == '\t' || c == '\n' || c == '\r' || c == '\x0b' || c == '\x0c'

/-- Hexadecimal digit, case-insensitive: `0`-`9` (codes 48-57),
`a`-`f` (97-102), `A`-`F` (65-70). These are the digits `int(s, 16)`
accepts (ASCII fragment). -/
def isHexDigitChar (c : Char) : Bool :=
  (48 ≤ c.toNat && c.toNat ≤ 57) ||
  (97 ≤ c.toNat && c.toNat ≤ 102) ||
  (65 ≤ c.toNat && c.toNat ≤ 70)

/-- Numeric value of a hexadecimal digit (0 on other characters). -/
def hexVal (c : Char) : Nat :=
  if 48 ≤ c.toNat ∧ c.toNat ≤ 57 then c.toNat - 48
  else if 97 ≤ c.toNat ∧ c.toNat ≤ 102 then c.toNat - 97 + 10
  else if 65 ≤ c.toNat ∧ c.toNat ≤ 70 then c.toNat - 65 + 10
  else 0

/-- The character class `[1234567890ABCDEF]` of the link regexes:
decimal digits (48-57) and uppercase `A`-`F` (65-70). -/
def isUpperHexDigit (c : Char) : Bool :=
  (48 ≤ c.toNat && c.toNat ≤ 57) || (65 ≤ c.toNat && c.toNat ≤ 70)

/-- The regex class `[a-z]` (codes 97-122). -/
def isLowerAlpha (c : Char) : Bool :=
  97 ≤ c.toNat && c.toNat ≤ 122

/-! ### Python `int(s, 16)`, the parser behind `_hex_to_int` -/

/-- Digit run after at least one digit has been consumed: further
hexadecimal digits, with single underscores allowed between digits. -/
def parseDigitsCore : List Char → Nat → Option Nat
  | [], acc => some acc
  | c :: rest, acc =>
    if isHexDigitChar c then parseDigitsCore rest (acc * 16 + hexVal c)
    else if c == '_' then
      match rest with
      | d :: rest2 =>
        if isHexDigitChar d then parseDigitsCore rest2 (acc * 16 + hexVal d) else none
      | [] => none
    else none

/-- Digit run: must start with a hexadecimal digit. -/
def parseDigitsEntry : List Char → Option Nat
  | [] => none
  | c :: rest => if isHexDigitChar c then parseDigitsCore rest (hexVal c) else none

/-- After a `0x`/`0X` prefix one underscore may precede the digits. -/
def parseAfterPre : List Char → Option Nat
  | '_' :: rest => parseDigitsEntry rest
  | l => parseDigitsEntry l

/-- Optional `0x`/`0X` prefix, then the digit run. -/
def parseNum : List Char → Option Nat
  | '0' :: x :: r =>
    if x == 'x' || x == 'X' then parseAfterPre r
    else parseDigitsEntry ('0' :: x :: r)
  | l => parseDigitsEntry l

/-- Strip leading and trailing whitespace. -/
def pyStrip (l : List Char) : List Char :=
  ((l.dropWhile pyIsSpace).reverse.dropWhile pyIsSpace).reverse

/-- Python `int(s, 16)`: optional surrounding whitespace, an optional
sign, an optional `0x`/`0X` prefix, and hexadecimal digits with single
underscores between digits. `none` models the `ValueError`. -/
def pyIntHex (s : List Char) : Option Int :=
  match pyStrip s with
  | '+' :: r => (parseNum r).map (fun n => (n : Int))
  | '-' :: r => (parseNum r).map (fun n => -(n : Int))
  | r => (parseNum r).map (fun n => (n : Int))

/-! ### Validation and address decoding -/

/-- Source `_hex_to_int(hexs)` is `int(hexs, 16)`; `none` models the raised
`ValueError`. -/
def _hex_to_int (hexs : String) : Option Int := pyIntHex hexs.data

/-- Source `_is_valid_hex(s)`: `True` exactly when `int(s, 16)` succeeds
(the `try`/`except ValueError` in the source). -/
def _is_valid_hex (s : String) : Bool := (_hex_to_int s).isSome

/-- Source `_is_valid_party_code(code)`: even length, length between 20 and
24, and `_is_valid_hex`. -/
def _is_valid_party_code (code : String) : Bool :=
  if code.length % 2 ≠ 0 then false
  else if ¬ (20 ≤ code.length ∧ code.length ≤ 24) then false
  else _is_valid_hex code

/-- Source `_swap_pairs(s)` on the character list: each consecutive pair of
characters is swapped; `zip_longest` with an empty fill keeps an odd
trailing character unchanged. -/
def swapPairsL : List Char → List Char
  | a :: b :: rest => b :: a :: swapPairsL rest
  | [a] => [a]
  | [] => []

/-- Source `_swap_pairs(s)`. -/
def _swap_pairs (s : String) : String := String.mk (swapPairsL s.data)

/-- Source `socket.inet_ntoa(struct.pack("<L", n)[::-1])`: pack the 32-bit
value little-endian, reverse the 4 bytes, and print the resulting
big-endian bytes as dotted decimal octets. -/
def inetNtoaBE (n : Nat) : String :=
  toString (n / 16777216 % 256) ++ "." ++ toString (n / 65536 % 256) ++ "." ++
  toString (n / 256 % 256) ++ "." ++ toString (n % 256)

/-- Source `_ip_from_hex(hexs)`; `none` models an exception (`ValueError`
from `int`, or `struct.error` when the value is outside `[0, 2^32)`). -/
def _ip_from_hex (hexs : String) : Option String :=
  (_hex_to_int (_swap_pairs hexs)).bind (fun n =>
    if 0 ≤ n ∧ n < 4294967296 then some (inetNtoaBE n.toNat) else none)

/-- The address decoder applied inside `read_link`:
`_ip_from_hex(code[:8])`. -/
def decode (code : String) : Option String :=
  _ip_from_hex (String.mk (code.data.take 8))

/-! ### Helper lemmas about the hex parser -/

theorem hex_not_space {c : Char} (h : isHexDigitChar c = true) : pyIsSpace c = false := by
  cases hps : pyIsSpace c
  · rfl
  · exfalso
    simp only [pyIsSpace, Bool.or_eq_true, beq_iff_eq] at hps
    rcases hps with ((((rfl | rfl) | rfl) | rfl) | rfl) | rfl <;> exact absurd h (by decide)

theorem hex_ne_plus {c : Char} (h : isHexDigitChar c = true) : c ≠ '+' := by
  rintro rfl; exact absurd h (by decide)

theorem hex_ne_minus {c : Char} (h : isHexDigitChar c = true) : c ≠ '-' := by
  rintro rfl; exact absurd h (by decide)

theorem dropWhile_cons_of_neg {p : Char → Bool} {a : Char} {l : List Char}
    (h : p a = false) : (a :: l).dropWhile p = a :: l := by
  simp [List.dropWhile_cons, h]

theorem pyStrip_of_all_hex {l : List Char} (hne : l ≠ [])
    (hall : l.all isHexDigitChar = true) : pyStrip l = l := by
  have hmem : ∀ c ∈ l, isHexDigitChar c = true := by
    intro c hc; exact List.all_eq_true.mp hall c hc
  rcases l with _ | ⟨a, t⟩
  · exact absurd rfl hne
  · have h1 : (a :: t).dropWhile pyIsSpace = a :: t :=
      dropWhile_cons_of_neg (hex_not_space (hmem a (by simp)))
    unfold pyStrip
    rw [h1]
    rcases hrev : (a :: t).reverse with _ | ⟨b, t2⟩
    · exact absurd hrev (by simp)
    · have hb : b ∈ (a :: t).reverse := by rw [hrev]; simp
      rw [List.mem_reverse] at hb
      rw [dropWhile_cons_of_neg (hex_not_space (hmem b hb))]
      rw [← hrev, List.reverse_reverse]

theorem parseDigitsCore_hex : ∀ (l : List Char) (acc : Nat),
    l.all isHexDigitChar = true →
    parseDigitsCore l acc = some (l.foldl (fun a c => a * 16 + hexVal c) acc)
  | [], _, _ => rfl
  | c :: rest, acc, h => by
    simp only [List.all_cons, Bool.and_eq_true] at h
    rw [parseDigitsCore.eq_def]
    simp only [h.1, if_true, List.foldl_cons]
    exact parseDigitsCore_hex rest _ h.2

theorem hexVal_lt (c : Char) : hexVal c < 16 := by
  unfold hexVal
  split_ifs <;> omega

theorem foldl_hexVal_lt : ∀ (l : List Char) (acc B : Nat), acc < B →
    l.foldl (fun a c => a * 16 + hexVal c) acc < B * 16 ^ l.length
  | [], acc, B, h => by simpa using h
  | c :: rest, acc, B, h => by
    have h1 : acc * 16 + hexVal c < B * 16 := by
      have := hexVal_lt c
      calc acc * 16 + hexVal c < acc * 16 + 16 := by omega
      _ ≤ B * 16 := by
        have : acc + 1 ≤ B := h
        calc acc * 16 + 16 = (acc + 1) * 16 := by ring
        _ ≤ B * 16 := Nat.mul_le_mul_right 16 this
    have h2 := foldl_hexVal_lt rest (acc * 16 + hexVal c) (B * 16) h1
    simp only [List.foldl_cons, List.length_cons]
    calc rest.foldl (fun a c => a * 16 + hexVal c) (acc * 16 + hexVal c)
        < B * 16 * 16 ^ rest.length := h2
    _ = B * 16 ^ (rest.length + 1) := by ring

theorem parseNum_hex {l : List Char} (hall : l.all isHexDigitChar = true) :
    parseNum l = parseDigitsEntry l := by
  rw [parseNum.eq_def]
  split
  · rename_i x r
    have hx : isHexDigitChar x = true := by
      simp only [List.all_cons, Bool.and_eq_true] at hall
      exact hall.2.1
    have : (x == 'x' || x == 'X') = false := by
      cases hxx : (x == 'x' || x == 'X')
      · rfl
      · exfalso
        simp only [Bool.or_eq_true, beq_iff_eq] at hxx
        rcases hxx with rfl | rfl <;> exact absurd hx (by decide)
    rw [this]
    simp
  · rfl

theorem parseDigitsEntry_hex {l : List Char} (hne : l ≠ [])
    (hall : l.all isHexDigitChar = true) :
    ∃ n : Nat, parseDigitsEntry l = some n ∧ n < 16 ^ l.length := by
  rcases l with _ | ⟨c, rest⟩
  · exact absurd rfl hne
  · simp only [List.all_cons, Bool.and_eq_true] at hall
    refine ⟨rest.foldl (fun a c => a * 16 + hexVal c) (hexVal c), ?_, ?_⟩
    · simp only [parseDigitsEntry, hall.1, if_true]
      exact parseDigitsCore_hex rest _ hall.2
    · have := foldl_hexVal_lt rest (hexVal c) 16 (hexVal_lt c)
      calc rest.foldl (fun a c => a * 16 + hexVal c) (hexVal c)
          < 16 * 16 ^ rest.length := this
      _ = 16 ^ (c :: rest).length := by
        simp only [List.length_cons]
        ring

theorem pyIntHex_hex {l : List Char} (hne : l ≠ [])
    (hall : l.all isHexDigitChar = true) :
    ∃ n : Nat, pyIntHex l = some (n : Int) ∧ n < 16 ^ l.length := by
  obtain ⟨n, hn, hlt⟩ := parseDigitsEntry_hex hne hall
  refine ⟨n, ?_, hlt⟩
  unfold pyIntHex
  rw [pyStrip_of_all_hex hne hall]
  rcases l with _ | ⟨c, t⟩
  · exact absurd rfl hne
  · have hc : isHexDigitChar c = true := by
      simp only [List.all_cons, Bool.and_eq_true] at hall
      exact hall.1
    have hplus := hex_ne_plus hc
    have hminus := hex_ne_minus hc
    split
    · rename_i r heq
      exact absurd (List.cons.injEq .. ▸ heq).1 hplus
    · rename_i r heq
      exact absurd (List.cons.injEq .. ▸ heq).1 hminus
    · rw [parseNum_hex hall, hn]
      rfl

/-! ### Claim C3 -/

/-- C3 (counterexample): `_is_valid_party_code` accepts
`"+123456789ABCDEF1234"`, a 20-character string containing `'+'`,
which is not a hexadecimal digit — refuting the claim that every
string containing a non-hex-digit character is rejected. -/
theorem c3_counterexample :
    _is_valid_party_code ("+123456789ABCDEF1234") = true ∧
    '+' ∈ ("+123456789ABCDEF1234" : String).data ∧
    isHexDigitChar '+' = false := by
  refine ⟨by decide, by decide, by decide⟩

/-- C3 (amended): `_is_valid_party_code code` is true iff the length
of `code` is even, between 20 and 24 inclusive, and `code` is accepted
by the hexadecimal-integer parser `_is_valid_hex` (which, beyond pure
hex-digit strings, also accepts an optional sign, surrounding
whitespace, a `0x` prefix, and underscores between digits); every
string whose characters are all hexadecimal digits (case-insensitive)
with such a length is accepted. -/
theorem c3_amended (code : String) :
    (_is_valid_party_code code = true ↔
      code.length % 2 = 0 ∧ 20 ≤ code.length ∧ code.length ≤ 24 ∧
        _is_valid_hex code = true) ∧
    (code.data.all isHexDigitChar = true → code.length % 2 = 0 →
      20 ≤ code.length → code.length ≤ 24 →
      _is_valid_party_code code = true) := by
  have hlen : code.length = code.data.length := rfl
  have key : ∀ h2 : code.length % 2 = 0, ∀ h20 : 20 ≤ code.length,
      ∀ h24 : code.length ≤ 24,
      _is_valid_party_code code = _is_valid_hex code := by
    intro h2 h20 h24
    unfold _is_valid_party_code
    have g1 : ¬ (code.length % 2 ≠ 0) := by omega
    have g2 : ¬ ¬ (20 ≤ code.length ∧ code.length ≤ 24) := by
      exact not_not_intro ⟨h20, h24⟩
    rw [if_neg g1, if_neg g2]
  constructor
  · constructor
    · intro h
      have h2 : code.length % 2 = 0 := by
        by_contra hodd
        rw [_is_valid_party_code, if_pos hodd] at h
        exact absurd h (by decide)
      have hrange : 20 ≤ code.length ∧ code.length ≤ 24 := by
        by_contra hr
        rw [_is_valid_party_code, if_neg (by omega), if_pos hr] at h
        exact absurd h (by decide)
      refine ⟨h2, hrange.1, hrange.2, ?_⟩
      rw [← key h2 hrange.1 hrange.2]
      exact h
    · intro h
      rw [key h.1 h.2.1 h.2.2.1]
      exact h.2.2.2
  · intro hall h2 h20 h24
    have hne : code.data ≠ [] := by
      intro h
      rw [hlen, h] at h20
      simp at h20
    rw [key h2 h20 h24]
    unfold _is_valid_hex _hex_to_int
    obtain ⟨n, hn, _⟩ := pyIntHex_hex hne hall
    rw [hn]
    rfl

/-- Witness for C3 (amended) at a concrete all-hex code of length 20. -/
theorem c3_amended_witness :
    _is_valid_party_code ("00112233445566778899") = true :=
  (c3_amended ("00112233445566778899")).2 (by decide) (by decide) (by decide) (by decide)

/-! ### Claim C1 -/

/-- C1: for valid codes, the decoded address depends only on the first
8 characters (`_ip_from_hex(code[:8])`), and any valid code whose
first 8 characters are `"0A141E28"` decodes to `160.65.225.130`
(nibble swap `"A041E182"`, read big-endian as four octets). -/
theorem c1_decode_first8 (p q : String)
    (_hp : _is_valid_party_code p = true) (_hq : _is_valid_party_code q = true)
    (hpq : p.data.take 8 = q.data.take 8) :
    decode p = decode q ∧
    (p.data.take 8 = ("0A141E28" : String).data →
      decode p = some ("160.65.225.130")) := by
  constructor
  · unfold decode
    rw [hpq]
  · intro h8
    unfold decode
    rw [h8]
    decide

/-- Witness for C1 at two concrete valid codes sharing the first
8 characters `"0A141E28"`. -/
theorem c1_decode_first8_witness :
    decode ("0A141E28AABBCC1122DD") = decode ("0A141E281111111111FF") ∧
    decode ("0A141E28AABBCC1122DD") = some ("160.65.225.130") := by
  have h := c1_decode_first8 ("0A141E28AABBCC1122DD") ("0A141E281111111111FF")
    (by decide) (by decide) (by decide)
  exact ⟨h.1, h.2 (by decide)⟩

/-! ### Link extraction (`_extract_links`, `_extract_code`) -/

/-- Head of the compiled pattern `diep.io/#`: the dot of the source
regex is an unescaped metacharacter, so the fifth character may be any
character except a newline. -/
def markerAt : List Char → Bool
  | 'd' :: 'i' :: 'e' :: 'p' :: c :: 'i' :: 'o' :: '/' :: '#' :: _ => c != '\n'
  | _ => false

theorem markerAt_shape {l : List Char} (h : markerAt l = true) :
    ∃ c rest, l = 'd' :: 'i' :: 'e' :: 'p' :: c :: 'i' :: 'o' :: '/' :: '#' :: rest ∧
      (c != '\n') = true := by
  rw [markerAt.eq_def] at h
  split at h
  · rename_i c rest
    exact ⟨c, rest, rfl, h⟩
  · exact absurd h (by decide)

theorem markerAt_length {l : List Char} (h : markerAt l = true) : 9 ≤ l.length := by
  obtain ⟨c, rest, rfl, -⟩ := markerAt_shape h
  simp

theorem length_dropWhile_le (p : α → Bool) : ∀ l : List α,
    (l.dropWhile p).length ≤ l.length
  | [] => Nat.le_refl _
  | a :: t => by
    rw [List.dropWhile_cons]
    split
    · exact Nat.le_succ_of_le (length_dropWhile_le p t)
    · exact Nat.le_refl _

/-- The optional `\s?` tail of the findall pattern: one whitespace
character after the hex run is consumed (but not captured). -/
def skipOneSpace : List Char → List Char
  | [] => []
  | w :: t => if pyIsSpace w then t else w :: t

theorem skipOneSpace_length_le (l : List Char) : (skipOneSpace l).length ≤ l.length := by
  rcases l with _ | ⟨w, t⟩
  · exact Nat.le_refl _
  · rw [skipOneSpace]
    split <;> simp

/-- Source `re.findall(r'(diep.io/#[1234567890ABCDEF]*)\s?', message)`:
left-to-right, non-overlapping scan; each captured group is the
9-character pattern head plus the maximal run of uppercase hex digits;
one optional trailing whitespace character is consumed but not
captured. The fuel argument only bounds the recursion: every step
consumes at least one character, so starting the scan with the input's
length never cuts it short. -/
def extractLoop : Nat → List Char → List (List Char)
  | _, [] => []
  | 0, _ :: _ => []
  | fuel + 1, x :: rest =>
    if markerAt (x :: rest) = true then
      ((x :: rest).take 9 ++ ((x :: rest).drop 9).takeWhile isUpperHexDigit) ::
        extractLoop fuel (skipOneSpace (((x :: rest).drop 9).dropWhile isUpperHexDigit))
    else extractLoop fuel rest

/-- The findall scan started with enough fuel. -/
def extractLinksL (l : List Char) : List (List Char) := extractLoop l.length l

/-- Source `_extract_links(message)`. -/
def _extract_links (message : String) : List String :=
  (extractLinksL message.data).map String.mk

/-- Source `re.search(r'diep.io/#([1234567890ABCDEF]*)\s?', link).group(1)`:
first position at which the pattern matches, capturing the maximal
uppercase-hex run after the 9-character head (`_search` turns a failed
match into `None`). -/
def searchCodeL : List Char → Option (List Char)
  | [] => none
  | l@(_ :: rest) =>
    if markerAt l then some ((l.drop 9).takeWhile isUpperHexDigit)
    else searchCodeL rest

/-- Source `_extract_code(link)`. -/
def _extract_code (link : String) : Option String :=
  (searchCodeL link.data).map String.mk

/-! ### The directory record parser (`DiepioServer`) -/

/-- Index of the last `':'` in a character list, if any. -/
def lastColon : List Char → Option Nat
  | [] => none
  | c :: rest =>
    match lastColon rest with
    | some k => some (k + 1)
    | none => if c = ':' then some 0 else none

/-- Source `re.match(r'([a-z]*)-([a-z]*):?(.*):', name).groups()`: a maximal
lowercase run, a literal `-`, a maximal lowercase run, then an optional
`':'` and a greedy `.*` (which cannot cross a newline) that backtracks
so the final `':'` of the pattern sits on the last colon of the first
remaining line. `none` models a failed match (on which `.groups()`
raises `AttributeError`). -/
def matchName (l : List Char) : Option (List Char × List Char × List Char) :=
  let g1 := l.takeWhile isLowerAlpha
  match l.dropWhile isLowerAlpha with
  | '-' :: r2 =>
    let g2 := r2.takeWhile isLowerAlpha
    let line := (r2.dropWhile isLowerAlpha).takeWhile (fun c => c != '\n')
    match lastColon line with
    | none => none
    | some k =>
      match line with
      | ':' :: rest =>
        if 1 ≤ k then some (g1, g2, rest.take (k - 1))
        else some (g1, g2, [])
      | _ => some (g1, g2, line.take k)
  | _ => none

/-- The `_translations` table of `DiepioServer`. -/
def translations : List (String × String) :=
  [("teams", "2-TDM"), ("4teams", "4-TDM"), ("dom", "Domination"),
   ("maze", "Maze"), ("sandbox", "Sandbox")]

/-- Source `self._translations.get(code, 'FFA')`. -/
def translateMode (code : String) : String :=
  match translations.find? (fun p => p.1 == code) with
  | some p => p.2
  | none => "FFA"

/-- One step of Python `str.title()`: a letter is uppercased after a
non-letter and lowercased after a letter. -/
def pyTitleGo : List Char → Bool → List Char
  | [], _ => []
  | c :: rest, prevAlpha =>
    (if prevAlpha then c.toLower else c.toUpper) :: pyTitleGo rest c.isAlpha

/-- Python `str.title()` (ASCII letters). -/
def pyTitle (s : String) : String := String.mk (pyTitleGo s.data false)

/-- A directory record: `DiepioServer(ip_port, name)`. -/
structure DiepioServer where
  ip_port : String
  name : String
deriving DecidableEq

/-- Source `_server`: the groups of the name regex; `none` models the
`AttributeError` raised on a failed match. -/
def DiepioServer.server_groups (s : DiepioServer) :
    Option (List Char × List Char × List Char) :=
  matchName s.name.data

/-- Source `company`: first group, title-cased. -/
def DiepioServer.company (s : DiepioServer) : Option String :=
  (s.server_groups).map (fun g => pyTitle (String.mk g.1))

/-- Source `location`: second group, passed through unchanged. -/
def DiepioServer.location (s : DiepioServer) : Option String :=
  (s.server_groups).map (fun g => String.mk g.2.1)

/-- Source `mode`: third group translated through `_translations`, defaulting
to `FFA`. -/
def DiepioServer.mode (s : DiepioServer) : Option String :=
  (s.server_groups).map (fun g => translateMode (String.mk g.2.2))

/-- Source `_ip_port`: the groups of `re.match(r'(.*):(.*)', ip_port)`; the
greedy `.*` stops at a newline and backtracks to the last `':'` of the
first line. `none` models the `AttributeError` on a failed match. -/
def DiepioServer.ip_port_groups (s : DiepioServer) : Option (String × String) :=
  let line := s.ip_port.data.takeWhile (fun c => c != '\n')
  match lastColon line with
  | none => none
  | some k => some (String.mk (line.take k), String.mk (line.drop (k + 1)))

/-- Source `ip`: first group of `_ip_port`. -/
def DiepioServer.ip (s : DiepioServer) : Option String :=
  (s.ip_port_groups).map (fun p => p.1)

/-- Source `port`: second group of `_ip_port`. -/
def DiepioServer.port (s : DiepioServer) : Option String :=
  (s.ip_port_groups).map (fun p => p.2)

/-! ### Resolved links and their classification -/

/-- Source `LinkServerData(code, server)`. -/
structure LinkServerData where
  code : String
  server : DiepioServer
deriving DecidableEq

/-- Source `code_length`. -/
def LinkServerData.code_length (d : LinkServerData) : Nat := d.code.length

/-- Source `is_sandbox()`: the mode is `Sandbox`, or the code is longer than
20 characters; `none` models the exception raised when the server name
fails its regex. -/
def LinkServerData.is_sandbox (d : LinkServerData) : Option Bool :=
  (d.server.mode).map (fun m => m == "Sandbox" || decide (d.code_length > 20))

/-- Source `is_tdm()`: the mode ends with `TDM`. -/
def LinkServerData.is_tdm (d : LinkServerData) : Option Bool :=
  (d.server.mode).map (fun m => m.endsWith ("TDM"))

/-- Source `format()`: the info block rendered from code, code length, ip,
mode, company and location; `none` models an exception from any of
those attributes. -/
def LinkServerData.format (d : LinkServerData) : Option String :=
  match d.server.ip, d.server.mode, d.server.company, d.server.location with
  | some ip, some mode, some comp, some loc =>
    some ("Code: " ++ d.code ++ "\nCode length: " ++ toString d.code_length ++
      "\nIP: " ++ ip ++ "\nMode: " ++ mode ++ "\nCompany: " ++ comp ++
      "\nLocation: " ++ loc ++ "\n")
  | _, _, _, _ => none

/-! ### Directory lookup, `read_link`, and the refresh -/

/-- Source `discord.utils.get(SERVER_LIST, ip=ip)`: scan in order, comparing
the `ip` attribute of each record; `Except.error` models the exception
raised when a scanned record's `ip_port` fails its regex. -/
def _find_server_by_ip : List DiepioServer → String → Except Unit (Option DiepioServer)
  | [], _ => Except.ok none
  | s :: rest, ip =>
    match s.ip with
    | none => Except.error ()
    | some sip =>
      if sip == ip then Except.ok (some s) else _find_server_by_ip rest ip

/-- The local `is_sandbox = len(code) == 22` computed (and never used)
in `read_link`: the "sandbox-length" flag. -/
def sandboxLenFlag (code : String) : Bool := code.length == 22

/-- Source `read_link(link)` against a given `SERVER_LIST`. `Except.error`
models an uncaught exception (re-extraction returning `None`, a hex or
packing failure, or a malformed record hit during the directory scan);
`Except.ok none` is the two `return None` paths. -/
def read_link (serverList : List DiepioServer) (link : String) :
    Except Unit (Option LinkServerData) :=
  match _extract_code link with
  | none => Except.error ()
  | some code =>
    if _is_valid_party_code code then
      let _flag := sandboxLenFlag code
      match _ip_from_hex (String.mk (code.data.take 8)) with
      | none => Except.error ()
      | some ip =>
        match _find_server_by_ip serverList ip with
        | Except.error e => Except.error e
        | Except.ok none => Except.ok none
        | Except.ok (some server) => Except.ok (some { code := code, server := server })
    else Except.ok none

/-- Python `data.split('\x00')` (single NUL separator, empties kept). -/
def splitOnNul : List Char → List (List Char)
  | [] => [[]]
  | c :: rest =>
    if c = '\x00' then [] :: splitOnNul rest
    else
      match splitOnNul rest with
      | h :: t => (c :: h) :: t
      | [] => [[c]]

/-- Modelled from the spec: `pairwise` (imported from `..utils.misc`,
which is not under `src/`) pairs the fields positionally as
`(field[2i], field[2i+1])`; an odd field count is malformed and the
load fails. -/
def pairwiseE : List (List Char) → Except Unit (List (List Char × List Char))
  | [] => Except.ok []
  | [_] => Except.error ()
  | a :: b :: rest => (pairwiseE rest).map (fun l => (a, b) :: l)

/-- Source `_load_servers_from_site` applied to the fetched response body:
discard the 2-character prefix, split on NUL, pair the fields, and
build one record per pair. -/
def _load_servers_from_site (data : String) : Except Unit (List DiepioServer) :=
  (pairwiseE (splitOnNul (data.data.drop 2))).map
    (fun ps => ps.map (fun p => { ip_port := String.mk p.1, name := String.mk p.2 }))

/-- Source `_produce_server_list`: on a successful fetch and decode the
global `SERVER_LIST` is replaced wholesale; if the fetch or the
pairing raises, the assignment never runs and the previous value is
kept. `none` is the state before the first successful refresh. -/
def _produce_server_list (fetched : Except Unit String)
    (serverList : Option (List DiepioServer)) : Option (List DiepioServer) :=
  match fetched with
  | Except.error _ => serverList
  | Except.ok data =>
    match _load_servers_from_site data with
    | Except.error _ => serverList
    | Except.ok l => some l

/-- Source `_find_server_by_ip` against the module-level state: reading
`SERVER_LIST` before the first successful refresh raises `NameError`. -/
def lookupState (serverList : Option (List DiepioServer)) (ip : String) :
    Except Unit (Option DiepioServer) :=
  match serverList with
  | none => Except.error ()
  | some l => _find_server_by_ip l ip

/-! ### Policy and the moderation decision (`on_message`) -/

/-- A guild's party-link policy flags (one `plconfig` entry). -/
structure Policy where
  detect : Bool
  delete : Bool
  tdm_delete : Bool
  all_delete : Bool
deriving DecidableEq

/-- The two deletion notices. -/
inductive NoticeKind
  | tdm
  | sandbox
deriving DecidableEq

/-- The action `on_message` takes (the spec calls this type `Action`). -/
inductive ModAction
  | none
  | deleteSilent
  | deleteWithNotice (kind : NoticeKind)
  | detectNotify
deriving DecidableEq

/-- Source `_handle_delete`: an immune author short-circuits to no action at
all; otherwise the message is deleted, preceded by a notice unless
silent. -/
def handleDelete (immune : Bool) (notice : Option NoticeKind) : ModAction :=
  if immune then ModAction.none
  else
    match notice with
    | Option.none => ModAction.deleteSilent
    | some k => ModAction.deleteWithNotice k

/-- Python `any(f(x) for x in l)` where `f` may raise: left to right,
short-circuiting on the first `True`, propagating the first
exception. -/
def anyOpt : List α → (α → Option Bool) → Option Bool
  | [], _ => some false
  | x :: xs, f =>
    match f x with
    | Option.none => Option.none
    | some true => some true
    | some false => anyOpt xs f

/-- Python `[g(x) for x in l]` where `g` may raise. -/
def mapOpt (f : α → Option β) : List α → Option (List β)
  | [] => some []
  | x :: xs =>
    match f x with
    | Option.none => Option.none
    | some y => (mapOpt f xs).map (fun ys => y :: ys)

/-- The decision logic of `on_message` after link extraction and
resolution, as a function of the resolved `link_data`, the guild
policy, and the author's immunity. `none` models an uncaught
exception (a resolved link whose server name or address fails its
regex while being classified or formatted). -/
def moderationDecision (linkData : List LinkServerData) (policy : Policy)
    (immune : Bool) : Option ModAction :=
  if policy.all_delete then some (handleDelete immune Option.none)
  else
    match (if policy.tdm_delete then anyOpt linkData LinkServerData.is_tdm else some false) with
    | Option.none => Option.none
    | some true => some (handleDelete immune (some NoticeKind.tdm))
    | some false =>
      match (if policy.delete then anyOpt linkData LinkServerData.is_sandbox else some false) with
      | Option.none => Option.none
      | some true => some (handleDelete immune (some NoticeKind.sandbox))
      | some false =>
        match mapOpt LinkServerData.format linkData with
        | Option.none => Option.none
        | some fmts =>
          some (if policy.detect && !fmts.isEmpty then ModAction.detectNotify else ModAction.none)

/-- Python `list(filter(None, map(read_link, links)))`: resolve each
extracted link in order, propagate the first exception, and drop the
`None` results. -/
def resolveLinks (serverList : List DiepioServer) :
    List String → Except Unit (List LinkServerData)
  | [] => Except.ok []
  | link :: rest =>
    match read_link serverList link with
    | Except.error e => Except.error e
    | Except.ok r =>
      (resolveLinks serverList rest).map (fun ds =>
        match r with
        | some d => d :: ds
        | Option.none => ds)

/-- Source `on_message` as the moderation decision on a message's content
(`none` models an uncaught exception). -/
def on_message (serverList : List DiepioServer) (content : String)
    (policy : Policy) (immune : Bool) : Option ModAction :=
  let links := _extract_links content
  if links.isEmpty then some ModAction.none
  else
    match resolveLinks serverList links with
    | Except.error _ => Option.none
    | Except.ok linkData => moderationDecision linkData policy immune

/-! ### Well-formed resolved links -/

/-- A resolved link whose directory record parses: the server name
matches the name regex and the address matches the `ip:port` regex. -/
def wellFormedLink (d : LinkServerData) : Bool :=
  (matchName d.server.name.data).isSome && (d.server.ip_port_groups).isSome

theorem mode_of_wf {d : LinkServerData} (h : wellFormedLink d = true) :
    ∃ m, d.server.mode = some m := by
  simp only [wellFormedLink, Bool.and_eq_true, Option.isSome_iff_exists] at h
  obtain ⟨⟨g, hg⟩, -⟩ := h
  exact ⟨translateMode (String.mk g.2.2), by
    simp [DiepioServer.mode, DiepioServer.server_groups, hg]⟩

theorem is_tdm_isSome {d : LinkServerData} (h : wellFormedLink d = true) :
    (d.is_tdm).isSome = true := by
  obtain ⟨m, hm⟩ := mode_of_wf h
  simp [LinkServerData.is_tdm, hm]

theorem is_sandbox_isSome {d : LinkServerData} (h : wellFormedLink d = true) :
    (d.is_sandbox).isSome = true := by
  obtain ⟨m, hm⟩ := mode_of_wf h
  simp [LinkServerData.is_sandbox, hm]

theorem format_isSome {d : LinkServerData} (h : wellFormedLink d = true) :
    (d.format).isSome = true := by
  simp only [wellFormedLink, Bool.and_eq_true, Option.isSome_iff_exists] at h
  obtain ⟨⟨g, hg⟩, ⟨p, hp⟩⟩ := h
  have hip : d.server.ip = some p.1 := by simp [DiepioServer.ip, hp]
  have hm : d.server.mode = some (translateMode (String.mk g.2.2)) := by
    simp [DiepioServer.mode, DiepioServer.server_groups, hg]
  have hc : d.server.company = some (pyTitle (String.mk g.1)) := by
    simp [DiepioServer.company, DiepioServer.server_groups, hg]
  have hl : d.server.location = some (String.mk g.2.1) := by
    simp [DiepioServer.location, DiepioServer.server_groups, hg]
  rw [LinkServerData.format, hip, hm, hc, hl]
  rfl

theorem anyOpt_of_isSome {α : Type} {f : α → Option Bool} {L : List α}
    (h : ∀ d ∈ L, (f d).isSome = true) :
    anyOpt L f = some (L.any (fun d => f d == some true)) := by
  induction L with
  | nil => rfl
  | cons x xs ih =>
    obtain ⟨b, hb⟩ := Option.isSome_iff_exists.mp (h x (by simp))
    have ih2 := ih (fun d hd => h d (by simp [hd]))
    cases b
    · rw [anyOpt, hb, ih2, List.any_cons, hb]
      rfl
    · rw [anyOpt, hb, List.any_cons, hb]
      rfl

theorem mapOpt_of_isSome {α β : Type} {f : α → Option β} {L : List α}
    (h : ∀ d ∈ L, (f d).isSome = true) :
    ∃ ys, mapOpt f L = some ys ∧ ys.length = L.length := by
  induction L with
  | nil => exact ⟨[], rfl, rfl⟩
  | cons x xs ih =>
    obtain ⟨y, hy⟩ := Option.isSome_iff_exists.mp (h x (by simp))
    obtain ⟨ys, hys, hlen⟩ := ih (fun d hd => h d (by simp [hd]))
    refine ⟨y :: ys, ?_, by simp [hlen]⟩
    rw [mapOpt, hy, hys]
    rfl

/-! ### Claim C2 -/

/-- C2 (counterexample): an immune author together with policy
`{detect: true, delete: false, tdm_delete: false, all_delete: false}`
and one resolved link yields the detection notification — not `None`
as the claim requires for every policy. -/
theorem c2_counterexample :
    moderationDecision
      [LinkServerData.mk ("0000000000000000000000")
        (DiepioServer.mk ("1.2.3.4:80") ("usa-west:teams:"))]
      (Policy.mk true false false false) true = some ModAction.detectNotify ∧
    some ModAction.detectNotify ≠ some ModAction.none := by
  refine ⟨by decide, by decide⟩

/-- C2 (amended): for an immune author the three deletion branches
produce no action — the decision is never `DeleteSilent` or
`DeleteWithNotice` — but when no deletion branch fires, the `detect`
branch still produces `DetectNotify` for a non-empty resolved list;
precisely, the decision is `DetectNotify` in exactly that case and
`None` otherwise. -/
theorem c2_amended (linkData : List LinkServerData) (policy : Policy)
    (hwf : ∀ d ∈ linkData, wellFormedLink d = true) :
    moderationDecision linkData policy true =
      some (if !policy.all_delete &&
              !(policy.tdm_delete && linkData.any (fun d => d.is_tdm == some true)) &&
              !(policy.delete && linkData.any (fun d => d.is_sandbox == some true)) &&
              policy.detect && !linkData.isEmpty
            then ModAction.detectNotify else ModAction.none) := by
  have htdm : anyOpt linkData LinkServerData.is_tdm =
      some (linkData.any (fun d => d.is_tdm == some true)) :=
    anyOpt_of_isSome (fun d hd => is_tdm_isSome (hwf d hd))
  have hsb : anyOpt linkData LinkServerData.is_sandbox =
      some (linkData.any (fun d => d.is_sandbox == some true)) :=
    anyOpt_of_isSome (fun d hd => is_sandbox_isSome (hwf d hd))
  obtain ⟨fmts, hfmts, hflen⟩ :=
    mapOpt_of_isSome (f := LinkServerData.format) (fun d hd => format_isSome (hwf d hd))
  have hempty : fmts.isEmpty = linkData.isEmpty := by
    cases fmts <;> cases linkData <;> simp_all
  obtain ⟨det, del, tdm, all⟩ := policy
  cases all <;> cases tdm <;> cases del <;> cases det <;>
    cases hA : linkData.any (fun d => d.is_tdm == some true) <;>
    cases hB : linkData.any (fun d => d.is_sandbox == some true) <;>
    simp [moderationDecision, handleDelete, htdm, hsb, hfmts, hempty, hA, hB]

/-- Witness for C2 (amended): an immune author with every flag set and
one resolved TDM link gets decision `None`. -/
theorem c2_amended_witness :
    moderationDecision
      [LinkServerData.mk ("0A141E2800000000000000")
        (DiepioServer.mk ("1.2.3.4:80") ("usa-west:teams:"))]
      (Policy.mk true true true true) true = some ModAction.none := by
  have h := c2_amended
      [LinkServerData.mk ("0A141E2800000000000000")
        (DiepioServer.mk ("1.2.3.4:80") ("usa-west:teams:"))]
      (Policy.mk true true true true) (by decide)
  rw [h]
  decide

/-! ### Claim C4 -/

/-- C4: for a resolved link whose record parses to mode `m`,
`is_sandbox` is true exactly when `m = "Sandbox"` or the code length
exceeds 20 (so any valid code of length 22 or 24 is classified
sandbox regardless of mode), and `is_tdm` is true exactly when `m`
ends with the literal `"TDM"`. -/
theorem c4_classify (d : LinkServerData) (m : String)
    (hm : d.server.mode = some m) :
    (d.is_sandbox = some true ↔ (m = "Sandbox" ∨ 20 < d.code.length)) ∧
    (d.is_tdm = some true ↔ m.endsWith ("TDM") = true) ∧
    (_is_valid_party_code d.code = true →
      (d.code.length = 22 ∨ d.code.length = 24) → d.is_sandbox = some true) := by
  have hsb : d.is_sandbox = some ((m == "Sandbox") || decide (d.code_length > 20)) := by
    rw [LinkServerData.is_sandbox, hm]
    rfl
  have htdm : d.is_tdm = some (m.endsWith ("TDM")) := by
    rw [LinkServerData.is_tdm, hm]
    rfl
  refine ⟨?_, ?_, ?_⟩
  · rw [hsb]
    simp [LinkServerData.code_length]
  · rw [htdm]
    simp
  · intro _hv hlen
    rw [hsb]
    have h20 : decide (d.code_length > 20) = true := by
      simp only [LinkServerData.code_length, decide_eq_true_eq]
      omega
    simp [h20]

/-- Witness for C4 at a resolved 22-character link with a TDM mode. -/
theorem c4_classify_witness :
    (LinkServerData.mk ("0000000000000000000000")
      (DiepioServer.mk ("1.2.3.4:80") ("usa-west:teams:"))).is_sandbox = some true :=
  (c4_classify _ ("2-TDM") (by decide)).2.2 (by decide) (Or.inl (by decide))

/-! ### Claim C5 -/

/-- C5 (counterexample): a resolved 24-character link whose mode is
`Maze` has `is_sandbox = true` although its sandbox-length flag
(`len(code) == 22`, computed in `read_link`) is false — that dead flag
is not what feeds the classifier's `is_sandbox`. -/
theorem c5_counterexample :
    sandboxLenFlag ("0A141E280000000000000000") = false ∧
    (LinkServerData.mk ("0A141E280000000000000000")
      (DiepioServer.mk ("1.2.3.4:80") ("usa-west:maze:"))).is_sandbox = some true ∧
    (LinkServerData.mk ("0A141E280000000000000000")
      (DiepioServer.mk ("1.2.3.4:80") ("usa-west:maze:"))).server.mode = some ("Maze") := by
  refine ⟨by decide, by decide, by decide⟩

/-- C5 (amended): `read_link` computes a sandbox-length flag that is
true exactly when the code length is 22, but the flag is unused: the
classifier's length test is `code_length > 20` applied directly, so a
24-character non-Sandbox link is classified sandbox while its flag is
false. -/
theorem c5_amended (d : LinkServerData) (m : String)
    (hm : d.server.mode = some m) :
    (sandboxLenFlag d.code = true ↔ d.code.length = 22) ∧
    (d.is_sandbox = some true ↔ (m = "Sandbox" ∨ 20 < d.code.length)) ∧
    (d.code.length = 24 → m ≠ "Sandbox" →
      sandboxLenFlag d.code = false ∧ d.is_sandbox = some true) := by
  have hsb : d.is_sandbox = some ((m == "Sandbox") || decide (d.code_length > 20)) := by
    rw [LinkServerData.is_sandbox, hm]
    rfl
  refine ⟨?_, ?_, ?_⟩
  · simp [sandboxLenFlag]
  · rw [hsb]
    simp [LinkServerData.code_length]
  · intro h24 _hm
    constructor
    · simp [sandboxLenFlag, h24]
    · rw [hsb]
      have h20 : decide (d.code_length > 20) = true := by
        simp only [LinkServerData.code_length, decide_eq_true_eq]
        omega
      simp [h20]

/-- Witness for C5 (amended) at a resolved 22-character FFA link. -/
theorem c5_amended_witness :
    sandboxLenFlag
      (LinkServerData.mk ("0000000000000000000000")
        (DiepioServer.mk ("1.2.3.4:80") ("abc-xyz:unknownmode:"))).code = true :=
  ((c5_amended
      (LinkServerData.mk ("0000000000000000000000")
        (DiepioServer.mk ("1.2.3.4:80") ("abc-xyz:unknownmode:")))
      ("FFA") (by decide)).1).mpr (by decide)

/-! ### Claim C6 -/

/-- C6: with a non-immune author and `all_delete` set, the decision is
`DeleteSilent`, before (and regardless of) the TDM, sandbox and detect
rules. -/
theorem c6_all_delete (linkData : List LinkServerData) (policy : Policy)
    (_hne : linkData ≠ []) (hall : policy.all_delete = true) :
    moderationDecision linkData policy false = some ModAction.deleteSilent := by
  rw [moderationDecision, if_pos hall]
  rfl

/-- Witness for C6: a list containing a sandbox link and a TDM link,
with every policy flag set. -/
theorem c6_all_delete_witness :
    moderationDecision
      [LinkServerData.mk ("0A141E280000000000000000")
         (DiepioServer.mk ("1.2.3.4:80") ("usa-west:sandbox:")),
       LinkServerData.mk ("0A141E2800000000000000")
         (DiepioServer.mk ("1.2.3.4:80") ("usa-west:teams:"))]
      (Policy.mk true true true true) false = some ModAction.deleteSilent :=
  c6_all_delete _ _ (by decide) rfl

/-! ### Claim C8 -/

/-- C8: a refresh whose fetch raises leaves the previous snapshot in
place unchanged, so every lookup against the state returns exactly
what it returned before the failed refresh. -/
theorem c8_refresh_failure (e : Unit) (st : Option (List DiepioServer)) (ip : String) :
    _produce_server_list (Except.error e) st = st ∧
    lookupState (_produce_server_list (Except.error e) st) ip = lookupState st ip :=
  ⟨rfl, rfl⟩

/-! ### Claim C7 -/

theorem takeWhile_append_cons {p : Char → Bool} : ∀ (xs : List Char) (y : Char)
    (ys : List Char), (∀ a ∈ xs, p a = true) → p y = false →
    (xs ++ y :: ys).takeWhile p = xs
  | [], y, ys, _, hy => by simp [List.takeWhile_cons, hy]
  | x :: xs, y, ys, hxs, hy => by
    have hx : p x = true := hxs x (by simp)
    simp only [List.cons_append, List.takeWhile_cons, hx, if_true]
    rw [takeWhile_append_cons xs y ys (fun a ha => hxs a (by simp [ha])) hy]

theorem dropWhile_append_cons {p : Char → Bool} : ∀ (xs : List Char) (y : Char)
    (ys : List Char), (∀ a ∈ xs, p a = true) → p y = false →
    (xs ++ y :: ys).dropWhile p = y :: ys
  | [], y, ys, _, hy => by simp [List.dropWhile_cons, hy]
  | x :: xs, y, ys, hxs, hy => by
    have hx : p x = true := hxs x (by simp)
    simp only [List.cons_append, List.dropWhile_cons, hx, if_true]
    exact dropWhile_append_cons xs y ys (fun a ha => hxs a (by simp [ha])) hy

theorem takeWhile_eq_self_of_all {p : Char → Bool} : ∀ l : List Char,
    (∀ a ∈ l, p a = true) → l.takeWhile p = l
  | [], _ => rfl
  | x :: xs, h => by
    simp only [List.takeWhile_cons, h x (by simp), if_true]
    rw [takeWhile_eq_self_of_all xs (fun a ha => h a (by simp [ha]))]

theorem lastColon_append_colon : ∀ l : List Char, lastColon (l ++ [':']) = some l.length
  | [] => rfl
  | c :: rest => by
    rw [List.cons_append, lastColon.eq_def]
    simp [lastColon_append_colon rest]

theorem take_append_len : ∀ (xs ys : List Char), (xs ++ ys).take xs.length = xs
  | [], _ => rfl
  | x :: xs, ys => by
    simp only [List.cons_append, List.length_cons, List.take_succ_cons]
    rw [take_append_len xs ys]

/-- The name regex on a well-formed directory name
`<company>-<location>:<mode_code>:` captures exactly those three
pieces, even when the mode code itself contains `':'`. -/
theorem matchName_structured (c l m : List Char)
    (hc : ∀ a ∈ c, isLowerAlpha a = true) (hl : ∀ a ∈ l, isLowerAlpha a = true)
    (hm : ∀ a ∈ m, (a != '\n') = true) :
    matchName (c ++ '-' :: (l ++ ':' :: (m ++ [':']))) = some (c, l, m) := by
  have h1 : (c ++ '-' :: (l ++ ':' :: (m ++ [':']))).takeWhile isLowerAlpha = c :=
    takeWhile_append_cons c '-' _ hc (by decide)
  have h2 : (c ++ '-' :: (l ++ ':' :: (m ++ [':']))).dropWhile isLowerAlpha =
      '-' :: (l ++ ':' :: (m ++ [':'])) :=
    dropWhile_append_cons c '-' _ hc (by decide)
  have h3 : (l ++ ':' :: (m ++ [':'])).takeWhile isLowerAlpha = l :=
    takeWhile_append_cons l ':' _ hl (by decide)
  have h4 : (l ++ ':' :: (m ++ [':'])).dropWhile isLowerAlpha = ':' :: (m ++ [':']) :=
    dropWhile_append_cons l ':' _ hl (by decide)
  have h5 : (':' :: (m ++ [':'])).takeWhile (fun ch => ch != '\n') = ':' :: (m ++ [':']) := by
    refine takeWhile_eq_self_of_all _ ?_
    intro a ha
    rcases List.mem_cons.mp ha with rfl | ha2
    · decide
    · rcases List.mem_append.mp ha2 with ha3 | ha4
      · exact hm a ha3
      · rcases List.mem_singleton.mp ha4 with rfl
        decide
  have h6 : lastColon (':' :: (m ++ [':'])) = some (m.length + 1) := by
    have := lastColon_append_colon (':' :: m)
    simpa using this
  rw [matchName]
  rw [h1, h2]
  simp only [h3, h4, h5, h6]
  rw [if_pos (by omega)]
  simp [take_append_len]

/-- C7: on a well-formed name `<company>-<location>:<mode_code>:` the
record parser captures the mode code as the whole segment up to the
final separator (right-anchored, so it may itself contain `':'`),
translates it through the fixed table with default `FFA`, title-cases
the company, and passes the location through; in particular
`"usa-west:teams:"` parses to company `Usa`, location `west`, mode
`2-TDM`, and `"abc-xyz:unknownmode:"` gets mode `FFA`. -/
theorem c7_record_parse (c l m : List Char) (ipp : String)
    (hc : ∀ a ∈ c, isLowerAlpha a = true) (hl : ∀ a ∈ l, isLowerAlpha a = true)
    (hm : ∀ a ∈ m, (a != '\n') = true) :
    ((DiepioServer.mk ipp (String.mk (c ++ '-' :: (l ++ ':' :: (m ++ [':']))))).company
        = some (pyTitle (String.mk c)) ∧
      (DiepioServer.mk ipp (String.mk (c ++ '-' :: (l ++ ':' :: (m ++ [':']))))).location
        = some (String.mk l) ∧
      (DiepioServer.mk ipp (String.mk (c ++ '-' :: (l ++ ':' :: (m ++ [':']))))).mode
        = some (translateMode (String.mk m))) ∧
    ((DiepioServer.mk ("x") ("usa-west:teams:")).company = some ("Usa") ∧
      (DiepioServer.mk ("x") ("usa-west:teams:")).location = some ("west") ∧
      (DiepioServer.mk ("x") ("usa-west:teams:")).mode = some ("2-TDM")) ∧
    (DiepioServer.mk ("x") ("abc-xyz:unknownmode:")).mode = some ("FFA") := by
  have hmn := matchName_structured c l m hc hl hm
  refine ⟨⟨?_, ?_, ?_⟩, ⟨by decide, by decide, by decide⟩, by decide⟩ <;>
    simp [DiepioServer.company, DiepioServer.location, DiepioServer.mode,
      DiepioServer.server_groups, hmn]

/-- Witness for C7 at a concrete name whose mode code contains the
separator: `"eu-north:my:mode:"` parses with mode code `my:mode`. -/
theorem c7_record_parse_witness :
    DiepioServer.mode
      (DiepioServer.mk ("y")
        (String.mk (("eu").data ++ '-' :: (("north").data ++ ':' :: (("my:mode").data ++ [':'])))))
      = some (translateMode ("my:mode")) :=
  ((c7_record_parse ("eu").data ("north").data ("my:mode").data ("y")
    (by decide) (by decide) (by decide)).1).2.2

/-! ### Claim C9 -/

theorem extractLoop_nil_of_no_marker : ∀ (fuel : Nat) (l : List Char),
    (∀ i, i < l.length → markerAt (l.drop i) = false) → extractLoop fuel l = []
  | fuel, [], _ => by cases fuel <;> rfl
  | 0, _ :: _, _ => rfl
  | fuel + 1, x :: rest, h => by
    have h0 : markerAt (x :: rest) = false := h 0 (by simp)
    rw [extractLoop, if_neg (by simp [h0])]
    exact extractLoop_nil_of_no_marker fuel rest (fun i hi => by
      have := h (i + 1) (by simpa using Nat.succ_lt_succ hi)
      simpa using this)

theorem all_takeWhile_self {p : Char → Bool} : ∀ l : List Char,
    ((l.takeWhile p).all p) = true
  | [] => rfl
  | x :: xs => by
    rw [List.takeWhile_cons]
    by_cases hx : p x = true
    · rw [if_pos hx]
      simp [hx, all_takeWhile_self xs]
    · rw [if_neg hx]
      rfl

theorem take9_marker (ch : Char) (tail : List Char) :
    ('d' :: 'i' :: 'e' :: 'p' :: ch :: 'i' :: 'o' :: '/' :: '#' :: tail).take 9 =
      ['d', 'i', 'e', 'p', ch, 'i', 'o', '/', '#'] := rfl

theorem drop9_marker (ch : Char) (tail : List Char) :
    ('d' :: 'i' :: 'e' :: 'p' :: ch :: 'i' :: 'o' :: '/' :: '#' :: tail).drop 9 =
      tail := rfl

theorem extractLoop_shape : ∀ (fuel : Nat) (l cand : List Char),
    cand ∈ extractLoop fuel l →
    markerAt cand = true ∧ (cand.drop 9).all isUpperHexDigit = true
  | fuel, [], cand, h => by cases fuel <;> simp [extractLoop] at h
  | 0, _ :: _, cand, h => by simp [extractLoop] at h
  | fuel + 1, x :: rest, cand, h => by
    by_cases hm : markerAt (x :: rest) = true
    · rw [extractLoop, if_pos hm] at h
      rcases List.mem_cons.mp h with rfl | h2
      · obtain ⟨ch, tail, heq, hnl⟩ := markerAt_shape hm
        rw [heq, take9_marker, drop9_marker]
        constructor
        · show markerAt ('d' :: 'i' :: 'e' :: 'p' :: ch :: 'i' :: 'o' :: '/' :: '#' ::
            tail.takeWhile isUpperHexDigit) = true
          rw [markerAt]
          exact hnl
        · show ((tail.takeWhile isUpperHexDigit).all isUpperHexDigit) = true
          exact all_takeWhile_self tail
      · exact extractLoop_shape fuel _ cand h2
    · rw [extractLoop, if_neg hm] at h
      exact extractLoop_shape fuel rest cand h

/-- C9 (counterexample): because the dot of the pattern is an
unescaped metacharacter, the text `"diepXio/#AB"`, which contains no
occurrence of the literal marker `"diep.io/#"` at any position, still
yields the candidate `"diepXio/#AB"`. -/
theorem c9_counterexample :
    _extract_links ("diepXio/#AB") = [("diepXio/#AB" : String)] ∧
    (List.range ("diepXio/#AB" : String).data.length).all
      (fun i => !(("diep.io/#" : String).data.isPrefixOf
        ((("diepXio/#AB" : String).data.drop i)))) = true := by
  refine ⟨by decide, by decide⟩

/-- C9 (amended): the extractor returns exactly the left-to-right,
non-overlapping matches of the marker pattern — `diep` , any
non-newline character, `io/#` — followed by the maximal run of
uppercase hex digits: a text with no occurrence of the marker pattern
yields the empty sequence, every candidate produced has exactly that
shape, and duplicates are kept verbatim in original order. -/
theorem c9_amended (t : List Char) :
    ((∀ i, i < t.length → markerAt (t.drop i) = false) → extractLinksL t = []) ∧
    (∀ cand ∈ extractLinksL t, markerAt cand = true ∧
      (cand.drop 9).all isUpperHexDigit = true) ∧
    extractLinksL ("diep.io/#AB diep.io/#AB" : String).data =
      [("diep.io/#AB" : String).data, ("diep.io/#AB" : String).data] :=
  ⟨fun h => extractLoop_nil_of_no_marker _ t h,
   fun cand hc => extractLoop_shape _ t cand hc,
   by decide⟩

/-- Witness for C9 (amended): a marker-free text yields no candidate. -/
theorem c9_amended_witness : extractLinksL ("hello world" : String).data = [] :=
  (c9_amended ("hello world" : String).data).1 (by decide)

/-! ### Claim C10 -/

theorem valid_len {code : String} (h : _is_valid_party_code code = true) :
    20 ≤ code.length ∧ code.length ≤ 24 ∧ code.length % 2 = 0 := by
  rw [_is_valid_party_code] at h
  by_cases h1 : code.length % 2 ≠ 0
  · rw [if_pos h1] at h
    exact absurd h (by decide)
  · rw [if_neg h1] at h
    by_cases h2 : ¬ (20 ≤ code.length ∧ code.length ≤ 24)
    · rw [if_pos h2] at h
      exact absurd h (by decide)
    · have h3 := not_not.mp h2
      exact ⟨h3.1, h3.2, by omega⟩

theorem upperHex_isHex {a : Char} (h : isUpperHexDigit a = true) :
    isHexDigitChar a = true := by
  simp only [isUpperHexDigit, Bool.or_eq_true, Bool.and_eq_true,
    decide_eq_true_eq] at h
  simp only [isHexDigitChar, Bool.or_eq_true, Bool.and_eq_true, decide_eq_true_eq]
  omega

theorem swapPairsL_all {p : Char → Bool} : ∀ l : List Char,
    l.all p = true → (swapPairsL l).all p = true
  | [], _ => rfl
  | [a], h => h
  | a :: b :: rest, h => by
    simp only [List.all_cons, Bool.and_eq_true] at h
    rw [swapPairsL]
    simp only [List.all_cons, Bool.and_eq_true]
    exact ⟨h.2.1, h.1, swapPairsL_all rest h.2.2⟩

theorem swapPairsL_length : ∀ l : List Char, (swapPairsL l).length = l.length
  | [] => rfl
  | [_] => rfl
  | _ :: _ :: rest => by
    rw [swapPairsL]
    simp [swapPairsL_length rest]

theorem ip_from_hex_hex {L : List Char} (hlen8 : L.length = 8)
    (hall : L.all isHexDigitChar = true) :
    ∃ n : Nat, n < 4294967296 ∧ _ip_from_hex (String.mk L) = some (inetNtoaBE n) := by
  have hswall := swapPairsL_all L hall
  have hswlen : (swapPairsL L).length = 8 := by
    rw [swapPairsL_length]
    exact hlen8
  have hswne : swapPairsL L ≠ [] := by
    intro h0
    rw [h0] at hswlen
    exact absurd hswlen (by decide)
  obtain ⟨n, hn, hnlt⟩ := pyIntHex_hex hswne hswall
  rw [hswlen] at hnlt
  have hn32 : n < 4294967296 := by
    have h16 : (16 : Nat) ^ 8 = 4294967296 := by norm_num
    omega
  refine ⟨n, hn32, ?_⟩
  have hsw : _hex_to_int (_swap_pairs (String.mk L)) = some ((n : Int)) := by
    rw [show _hex_to_int (_swap_pairs (String.mk L)) = pyIntHex (swapPairsL L) from rfl]
    exact hn
  rw [_ip_from_hex, hsw, Option.some_bind]
  rw [if_pos ⟨Int.natCast_nonneg n, by exact_mod_cast hn32⟩]
  simp

theorem extract_code_of_shape {cand : List Char} (hm : markerAt cand = true)
    (hall : (cand.drop 9).all isUpperHexDigit = true) :
    searchCodeL cand = some (cand.drop 9) := by
  rcases cand with _ | ⟨x, rest⟩
  · exact absurd hm (by decide)
  · rw [searchCodeL, if_pos hm]
    congr 1
    exact takeWhile_eq_self_of_all _ (fun a ha => List.all_eq_true.mp hall a ha)

theorem find_server_ok {sl : List DiepioServer}
    (h : ∀ s ∈ sl, (s.ip_port_groups).isSome = true) (ip : String) :
    ∃ o, _find_server_by_ip sl ip = Except.ok o := by
  induction sl with
  | nil => exact ⟨none, rfl⟩
  | cons s rest ih =>
    obtain ⟨p, hp⟩ := Option.isSome_iff_exists.mp (h s (by simp))
    have hips : s.ip = some p.1 := by simp [DiepioServer.ip, hp]
    rw [_find_server_by_ip, hips]
    by_cases heq : (p.1 == ip) = true
    · refine ⟨some s, ?_⟩
      simp only [heq, if_true]
    · obtain ⟨o, ho⟩ := ih (fun s2 hs2 => h s2 (by simp [hs2]))
      refine ⟨o, ?_⟩
      simp only [heq, if_false, Bool.false_eq_true]
      exact ho

/-- C10 (counterexample): a server list produced by a successful
refresh can hold a record whose address has no `':'`; scanning it
makes `read_link` raise on an extractor-produced candidate, so
`read_link` is not total after every successful refresh. -/
theorem c10_counterexample :
    _produce_server_list (Except.ok ("ZZjunk\x00a-b:c:")) none =
      some [DiepioServer.mk ("junk") ("a-b:c:")] ∧
    _extract_links ("diep.io/#00000000000000000000") =
      [("diep.io/#00000000000000000000" : String)] ∧
    read_link [DiepioServer.mk ("junk") ("a-b:c:")]
      ("diep.io/#00000000000000000000") = Except.error () := by
  refine ⟨rfl, rfl, rfl⟩

/-- C10 (amended): on every candidate the extractor produces, the code
re-extraction always yields a string (never `None`), and — provided
every record of the (successfully refreshed) server list has a
well-formed `ip:port` address — `read_link` never raises: it returns
`None` or a resolved link. -/
theorem c10_amended (text link : String) (hmem : link ∈ _extract_links text)
    (sl : List DiepioServer) (hwf : ∀ s ∈ sl, (s.ip_port_groups).isSome = true) :
    (_extract_code link).isSome = true ∧
    ∃ r : Option LinkServerData, read_link sl link = Except.ok r := by
  obtain ⟨cand, hcand, rfl⟩ :
      ∃ cand, cand ∈ extractLinksL text.data ∧ link = String.mk cand := by
    simp only [_extract_links, List.mem_map] at hmem
    obtain ⟨cand, h1, h2⟩ := hmem
    exact ⟨cand, h1, h2.symm⟩
  obtain ⟨hmk, hall⟩ := extractLoop_shape _ _ _ hcand
  have hsearch : searchCodeL cand = some (cand.drop 9) := extract_code_of_shape hmk hall
  have hec : _extract_code (String.mk cand) = some (String.mk (cand.drop 9)) := by
    simp [_extract_code, hsearch]
  refine ⟨by simp [hec], ?_⟩
  simp only [read_link, hec]
  by_cases hv : _is_valid_party_code (String.mk (cand.drop 9)) = true
  · rw [if_pos hv]
    have h20 : 20 ≤ (cand.drop 9).length := by
      have := (valid_len hv).1
      rwa [show (String.mk (cand.drop 9)).length = (cand.drop 9).length from rfl] at this
    have htake : (((cand.drop 9).take 8).all isHexDigitChar) = true := by
      apply List.all_eq_true.mpr
      intro a ha
      exact upperHex_isHex
        (List.all_eq_true.mp hall a (List.take_subset _ _ ha))
    have hlen8 : ((cand.drop 9).take 8).length = 8 := by
      rw [List.length_take]
      omega
    obtain ⟨n, _hn32, hip⟩ := ip_from_hex_hex hlen8 htake
    rw [hip]
    obtain ⟨o, ho⟩ := find_server_ok hwf (inetNtoaBE n)
    simp only [ho]
    cases o
    · exact ⟨none, rfl⟩
    · exact ⟨some _, rfl⟩
  · rw [if_neg hv]
    exact ⟨none, rfl⟩

/-- Witness for C10 (amended) at a concrete extracted link and a
well-formed one-record server list. -/
theorem c10_amended_witness :
    (_extract_code ("diep.io/#0A141E28AABBCC1122DD")).isSome = true ∧
    ∃ r : Option LinkServerData,
      read_link [DiepioServer.mk ("160.65.225.130:443") ("usa-west:teams:")]
        ("diep.io/#0A141E28AABBCC1122DD") = Except.ok r :=
  c10_amended ("diep.io/#0A141E28AABBCC1122DD") ("diep.io/#0A141E28AABBCC1122DD")
    (by decide) [DiepioServer.mk ("160.65.225.130:443") ("usa-west:teams:")]
    (by decide)
